import Mathlib

/-!
Shallow embedding of the osagent package of the orchestrator-agent
repository (osagent/osagent.go), together with theorems settling the
behavioural claims about its command-output parsing and mount/snapshot
logic.

External command execution is modelled by an explicit environment
`ExecEnv`: a function from a program name and argument list to either an
error message or the captured standard output. Go functions that return
a `(value, error)` pair are modelled as Lean functions returning a pair
whose second component is `Option String` (`none` = nil error); Go code
that can panic on out-of-range slice indexing is wrapped in `Option`
(`none` = panic).
-/

namespace Osagent

/-- Whitespace predicate of Go's `unicode.IsSpace` restricted to ASCII,
as used by `strings.TrimSpace`. -/
def goIsSpace (c : Char) : Bool :=
  c = ' ' || c = '\t' || c = '\n' || c = '\x0b' || c = '\x0c' || c = '\r'

/-- Remove the longest run of characters satisfying `p` from the front of
a character list (the list-level core of Go's `strings.TrimLeft`). -/
def trimLeftChars (p : Char → Bool) : List Char → List Char
  | [] => []
  | c :: cs => if p c then trimLeftChars p cs else c :: cs

/-- Remove the longest run of characters satisfying `p` from the back of
a character list (the list-level core of Go's `strings.TrimRight`). -/
def trimRightChars (p : Char → Bool) (l : List Char) : List Char :=
  (trimLeftChars p l.reverse).reverse

/-- Remove the longest runs of characters satisfying `p` from both ends
(the list-level core of Go's `strings.Trim`). -/
def trimBothChars (p : Char → Bool) (l : List Char) : List Char :=
  trimRightChars p (trimLeftChars p l)

/-- Model of Go's `strings.TrimSpace`. -/
def goTrimSpace (s : String) : String :=
  ⟨trimBothChars goIsSpace s.toList⟩

/-- Prepend a character onto the first field of a field list, used by the
splitting functions below. -/
def consHead (c : Char) : List (List Char) → List (List Char)
  | [] => [[c]]
  | r :: rs => (c :: r) :: rs

/-- Split a character list at every occurrence of the delimiter `d`,
keeping empty fields: the model of Go's `strings.Split(s, d)` for a
one-character separator. -/
def splitOnChar (d : Char) : List Char → List (List Char)
  | [] => [[]]
  | c :: cs =>
    if c = d then [] :: splitOnChar d cs
    else consHead c (splitOnChar d cs)

/-- Split a character list on maximal nonempty runs of delimiter
characters (those satisfying `p`): the model of
`regexp.MustCompile(delims).Split(s, -1)` for a character-class-plus
pattern. A run at either end contributes an empty boundary field, and
the empty list splits into one empty field, matching `regexp.Split`. -/
def splitRuns (p : Char → Bool) : List Char → List (List Char)
  | [] => [[]]
  | c :: cs =>
    if p c then
      match cs with
      | [] => [] :: splitRuns p cs
      | c2 :: _ => if p c2 then splitRuns p cs else [] :: splitRuns p cs
    else consHead c (splitRuns p cs)

/-- Model of Go's `strings.Contains`: does `pat` occur in `s` as a
contiguous substring? -/
def goContains (s pat : String) : Bool :=
  s.toList.tails.any (fun t => pat.toList.isPrefixOf t)

/-- Numeric value of a list of decimal digit characters. -/
def digitsToNat (l : List Char) : Nat :=
  l.foldl (fun a c => a * 10 + (c.toNat - '0'.toNat)) 0

/-- A value of Go's float64 type as it can appear in the
SnapshotPercent field: a finite value, an infinity of either sign, or a
NaN. Finite values carry their exact rational value: in-range decimals
are not rounded, which no claim under verification depends on; the
special values and their IEEE comparison behaviour, which the claims do
depend on, are represented exactly. A negative zero is identified with
zero, as the two are indistinguishable by the comparisons the code
performs. -/
inductive GoFloat where
  | finite (val : ℚ)
  | posInf
  | negInf
  | nan
  deriving Repr, DecidableEq

/-- IEEE comparison x >= y on modelled float values: any comparison
involving a NaN is false; the infinities compare as the extreme
elements; finite values compare as rationals. -/
def GoFloat.ge : GoFloat → GoFloat → Bool
  | .nan, _ => false
  | _, .nan => false
  | .posInf, _ => true
  | _, .posInf => false
  | _, .negInf => true
  | .negInf, _ => false
  | .finite a, .finite b => a ≥ b

/-- IEEE comparison x < y on modelled float values: any comparison
involving a NaN is false. -/
def GoFloat.lt : GoFloat → GoFloat → Bool
  | .nan, _ => false
  | _, .nan => false
  | .posInf, _ => false
  | _, .negInf => false
  | .negInf, _ => true
  | .finite a, .finite b => a < b
  | .finite _, .posInf => true

/-- Lower-case an ASCII letter, for the case-insensitive special forms
of `strconv.ParseFloat`. -/
def asciiLower (c : Char) : Char :=
  if 'A' ≤ c ∧ c ≤ 'Z' then Char.ofNat (c.toNat + 32) else c

/-- The syntactic part of Go's `strconv.ParseFloat`: the special forms
NaN and (signed) Inf or Infinity, case-insensitively; otherwise an
optionally signed decimal mantissa (digits, optional point and fraction
digits, at least one digit in all) with an optional decimal exponent.
Returns the exact value, or `none` for a syntax error. Hexadecimal
floating forms and underscore digit separators are not modelled: the
volume manager never prints them and no claim depends on them. -/
def goParseFloatSyntax (s : String) : Option GoFloat :=
  if s.toList.map asciiLower = "nan".toList then some GoFloat.nan
  else
    let signed : Bool × List Char :=
      match s.toList with
      | '-' :: r => (true, r)
      | '+' :: r => (false, r)
      | l => (false, l)
    let neg := signed.1
    let body := signed.2
    if body.map asciiLower = "inf".toList ∨ body.map asciiLower = "infinity".toList then
      some (if neg then GoFloat.negInf else GoFloat.posInf)
    else
      let intPart := body.takeWhile Char.isDigit
      let rest1 := body.dropWhile Char.isDigit
      let fracSplit : List Char × List Char :=
        match rest1 with
        | '.' :: r => (r.takeWhile Char.isDigit, r.dropWhile Char.isDigit)
        | _ => ([], rest1)
      let frac := fracSplit.1
      if intPart.isEmpty ∧ frac.isEmpty then none
      else
        let mant : ℚ :=
          (digitsToNat intPart : ℚ) + (digitsToNat frac : ℚ) / (10 : ℚ) ^ frac.length
        match fracSplit.2 with
        | [] => some (GoFloat.finite (if neg then -mant else mant))
        | e :: r =>
          if e = 'e' ∨ e = 'E' then
            let esigned : Bool × List Char :=
              match r with
              | '-' :: r2 => (true, r2)
              | '+' :: r2 => (false, r2)
              | r2 => (false, r2)
            if esigned.2.isEmpty ∨ ¬ esigned.2.all Char.isDigit then none
            else
              let scale : ℚ := (10 : ℚ) ^ digitsToNat esigned.2
              let v := if esigned.1 then mant / scale else mant * scale
              some (GoFloat.finite (if neg then -v else v))
          else none

/-- The largest finite float32, (2 - 2 to the -23) times 2 to the 127,
as an exact rational. -/
def maxFloat32 : ℚ := (2 ^ 24 - 1) * 2 ^ 104

/-- The magnitude at or below which a nonzero decimal rounds to zero in
float32 (half the smallest subnormal, 2 to the -150). -/
def underflowFloat32 : ℚ := 1 / 2 ^ 150

/-- Model of Go's `strconv.ParseFloat(s, 32)`, returning the Go-style
`(value, error)` pair. A syntax error returns zero with the syntax
error; a well-formed decimal whose magnitude exceeds the largest finite
float32 returns the correspondingly signed infinity with a range error,
and a nonzero decimal that rounds to zero returns zero with a range
error, as the Go parser does; other finite values are carried exactly
(the half-ULP rounding slivers at the two range boundaries are not
modelled, and no claim depends on the rounding of in-range values). -/
def goParseFloat (s : String) : GoFloat × Option String :=
  match goParseFloatSyntax s with
  | none => (GoFloat.finite 0, some "invalid syntax")
  | some (GoFloat.finite v) =>
    if maxFloat32 < v then (GoFloat.posInf, some "value out of range")
    else if v < -maxFloat32 then (GoFloat.negInf, some "value out of range")
    else if v ≠ 0 ∧ (if v < 0 then -v else v) ≤ underflowFloat32 then
      (GoFloat.finite 0, some "value out of range")
    else (GoFloat.finite v, none)
  | some special => (special, none)

/-- Model of Go's `strconv.ParseInt(s, 10, 0)` on a 64-bit platform:
optional sign followed by decimal digits, clamped to the int64 range
with a range error. Returns the Go-style `(value, error)` pair. -/
def goParseInt (s : String) : Int × Option String :=
  let signed : Int × List Char :=
    match s.toList with
    | '-' :: r => (-1, r)
    | '+' :: r => (1, r)
    | l => (1, l)
  if signed.2.isEmpty || !signed.2.all Char.isDigit then
    (0, some "invalid syntax")
  else
    let v : Int := signed.1 * (digitsToNat signed.2 : Int)
    if v > 2 ^ 63 - 1 then (2 ^ 63 - 1, some "value out of range")
    else if v < -(2 ^ 63) then (-(2 ^ 63), some "value out of range")
    else (v, none)

/-- LogicalVolume describes an LVM volume (struct `LogicalVolume`).
`SnapshotPercent` is a float64 in the source, modelled by `GoFloat`. -/
structure LogicalVolume where
  Name : String
  GroupName : String
  Path : String
  IsSnapshot : Bool
  SnapshotPercent : GoFloat
  deriving Repr, DecidableEq

/-- Method `LogicalVolume.IsSnapshotValid`: not valid when not a
snapshot; not valid when the usage percentage compares >= 100.0 (an
IEEE comparison, false whenever the percentage is NaN); valid
otherwise. -/
def LogicalVolume.IsSnapshotValid (lv : LogicalVolume) : Bool :=
  if !lv.IsSnapshot then false
  else if GoFloat.ge lv.SnapshotPercent (GoFloat.finite 100) then false
  else true

/-- Mount describes a file system mount point (struct `Mount`). -/
structure Mount where
  Path : String
  Device : String
  LVPath : String
  FileSystem : String
  IsMounted : Bool
  DiskUsage : Int
  deriving Repr, DecidableEq

/-- The ambient operating system, as seen through `exec.Command`: maps a
program name and argument list to the command's standard output, or to
an error message when the program cannot start or exits non-zero. -/
abbrev ExecEnv := String → List String → Except String String

/-- Function `commandSplit`: trim surrounding whitespace, split on runs
of spaces (pattern `[ ]+`), and return the first token as the program
name and the rest as arguments. -/
def commandSplit (commandText : String) : String × List String :=
  let tokens := (splitRuns (fun c => c = ' ') (goTrimSpace commandText).toList).map
    (fun l => (⟨l⟩ : String))
  (tokens.headD "", tokens.tail)

/-- Function `commandOutput`: split the command line and execute it,
returning captured standard output or the execution error. -/
def commandOutput (env : ExecEnv) (commandText : String) : Except String String :=
  let split := commandSplit commandText
  env split.1 split.2

/-- Function `outputLines`: propagate an upstream error; otherwise trim
newlines from both ends of the output (Go's `strings.Trim(text, nl)`)
and split what remains at each newline. -/
def outputLines (res : Except String String) : Except String (List String) :=
  match res with
  | .error e => .error e
  | .ok out =>
    .ok ((splitOnChar '\n' (trimBothChars (fun c => c = '\n') out.toList)).map
      (fun l => (⟨l⟩ : String)))

/-- The delimiter class of the pattern `[ \t]+` used for field
splitting. -/
def tabOrSpace (c : Char) : Bool :=
  c = ' ' || c = '\t'

/-- Function `outputTokens`: split each output line on maximal runs of
delimiter characters, producing rows of tokens. -/
def outputTokens (p : Char → Bool) (res : Except String String) :
    Except String (List (List String)) :=
  match outputLines res with
  | .error e => .error e
  | .ok lines =>
    .ok (lines.map (fun l => (splitRuns p l.toList).map (fun f => (⟨f⟩ : String))))

/-- The command line built by `LogicalVolumes` (its `fmt.Sprintf`). -/
def lvsCommand (volumeName : String) : String :=
  "lvs --noheading -o lv_name,vg_name,lv_path,snap_percent " ++ volumeName

/-- One iteration of the row loop of `LogicalVolumes`: build a
`LogicalVolume` from a token row. Token indices follow the source
(`lineTokens[1]` through `lineTokens[4]`); `none` models the Go panic
when the row has too few tokens. The snapshot-percent field is parsed
as a float; `IsSnapshot` records whether that parse returned a nil
error, and `SnapshotPercent` receives whatever value the parse
returned (also on failure), matching the two source assignments. -/
def parseLVRow (lineTokens : List String) : Option LogicalVolume := do
  let name ← lineTokens.get? 1
  let groupName ← lineTokens.get? 2
  let path ← lineTokens.get? 3
  let snapField ← lineTokens.get? 4
  let parsed := goParseFloat snapField
  pure ⟨name, groupName, path, parsed.2.isNone, parsed.1⟩

/-- Parse every token row of a volume listing in order, without any
name filtering: the reference point the filtering loop is compared
against. -/
def parseLVRows : List (List String) → Option (List LogicalVolume)
  | [] => some []
  | t :: ts => do
    let lv ← parseLVRow t
    let rest ← parseLVRows ts
    pure (lv :: rest)

/-- The row loop of `LogicalVolumes`: parse every row in order,
appending a row's volume to the result only when its name contains
`filterPattern`. -/
def lvRowsLoop (filterPattern : String) : List (List String) → Option (List LogicalVolume)
  | [] => some []
  | lineTokens :: rest => do
    let lv ← parseLVRow lineTokens
    let tail ← lvRowsLoop filterPattern rest
    pure (if goContains lv.Name filterPattern then lv :: tail else tail)

/-- Function `LogicalVolumes`: run the volume-list command, tokenize on
runs of spaces and tabs, and build the filtered volume list. An
execution error is returned as-is; row parsing itself never produces an
error (the final Go return is `logicalVolumes, nil`). -/
def LogicalVolumes (env : ExecEnv) (volumeName filterPattern : String) :
    Option (Except String (List LogicalVolume)) :=
  match outputTokens tabOrSpace (commandOutput env (lvsCommand volumeName)) with
  | .error e => some (.error e)
  | .ok tokens => (lvRowsLoop filterPattern tokens).map Except.ok

/-- Function `GetLogicalVolumePath`: path of the first volume listed for
`volumeName` (no name filter); a not-found error when the list call
fails or returns nothing. -/
def GetLogicalVolumePath (env : ExecEnv) (volumeName : String) :
    Option (String × Option String) := do
  match ← LogicalVolumes env volumeName "" with
  | .ok (lv :: _) => pure (lv.Path, none)
  | .ok [] => pure ("", some ("logical volume not found: " ++ volumeName))
  | .error _ => pure ("", some ("logical volume not found: " ++ volumeName))

/-- The `Mount` value both `GetMount` and `MountLV` start from: the
queried path, not mounted, all other fields at their zero values. -/
def emptyMount (mountPoint : String) : Mount :=
  ⟨mountPoint, "", "", "", false, 0⟩

/-- Function `DiskUsage`: run the recursive byte-size command, tokenize,
and parse the first field of the first row as an integer, returning the
Go-style `(value, error)` pair of that parse; an execution error is
propagated with a zero value. -/
def DiskUsage (env : ExecEnv) (path : String) : Int × Option String :=
  match outputTokens tabOrSpace (commandOutput env ("du -sb " ++ path)) with
  | .error e => (0, some e)
  | .ok tokens =>
    match tokens with
    | lineTokens :: _ => goParseInt (lineTokens.headD "")
    | [] => (0, none)

/-- The row loop of `GetMount`: every matching mount-table row
overwrites the mount's fields (the last row wins), marking it mounted
and enriching it with the best-effort volume path and disk usage, whose
errors are discarded. `none` models the Go panic on a row with fewer
than three tokens. -/
def mountLoop (env : ExecEnv) (mountPoint : String) :
    List (List String) → Mount → Option Mount
  | [], m => some m
  | lineTokens :: rest, _ => do
    let device ← lineTokens.get? 0
    let path ← lineTokens.get? 1
    let fileSystem ← lineTokens.get? 2
    let lvPath ← GetLogicalVolumePath env device
    let du := DiskUsage env mountPoint
    mountLoop env mountPoint rest ⟨path, device, lvPath.1, fileSystem, true, du.1⟩

/-- Function `GetMount`: look the mount point up in the mount table via
a filtering command. A failing lookup is interpreted as "not mounted"
and returns the unmounted mount with a nil error; otherwise the row
loop runs and the result is returned, again with a nil error. -/
def GetMount (env : ExecEnv) (mountPoint : String) : Option (Mount × Option String) :=
  match outputTokens tabOrSpace
      (commandOutput env ("grep " ++ mountPoint ++ " /etc/mtab")) with
  | .error _ => some (emptyMount mountPoint, none)
  | .ok tokens => (mountLoop env mountPoint tokens (emptyMount mountPoint)).map
      (fun m => (m, none))

/-- Function `MountLV`: reject an empty volume name before any command
runs; otherwise issue the mount command, propagating its failure with
the unmounted mount, and on success re-query `GetMount`. -/
def MountLV (env : ExecEnv) (mountPoint volumeName : String) :
    Option (Mount × Option String) :=
  if volumeName = "" then
    some (emptyMount mountPoint, some "Empty columeName in MountLV")
  else
    match commandOutput env ("mount " ++ volumeName ++ " " ++ mountPoint) with
    | .error e => some (emptyMount mountPoint, some e)
    | .ok _ => GetMount env mountPoint

/-- Function `Unmount`: issue the unmount command, propagating its
failure with the unmounted mount, and on success re-query `GetMount`. -/
def Unmount (env : ExecEnv) (mountPoint : String) : Option (Mount × Option String) :=
  match commandOutput env ("umount " ++ mountPoint) with
  | .error e => some (emptyMount mountPoint, some e)
  | .ok _ => GetMount env mountPoint

/-- The configuration options the osagent package reads
(`config.Config`), as named string options. -/
structure Config where
  AvailableLocalSnapshotHostsCommand : String
  AvailableSnapshotHostsCommand : String
  MySQLServiceStatusCommand : String
  MySQLServiceStopCommand : String
  MySQLServiceStartCommand : String
  SnapshotVolumesFilter : String
  SnapshotMountPoint : String
  deriving Repr, DecidableEq

/-- Function `AvailableSnapshots`: run the local or global
snapshot-host discovery command and return its raw line sequence. -/
def AvailableSnapshots (env : ExecEnv) (cfg : Config) (requireLocal : Bool) :
    Except String (List String) :=
  let command :=
    if requireLocal then cfg.AvailableLocalSnapshotHostsCommand
    else cfg.AvailableSnapshotHostsCommand
  outputLines (commandOutput env command)

/-- Function `MySQLRunning`: the status command exiting zero means the
service is running; a non-zero exit means it is not. Either way the
returned error is nil. -/
def MySQLRunning (env : ExecEnv) (cfg : Config) : Bool × Option String :=
  match commandOutput env cfg.MySQLServiceStatusCommand with
  | .ok _ => (true, none)
  | .error _ => (false, none)

/-- Function `MySQLStop`: propagate the stop command's outcome. -/
def MySQLStop (env : ExecEnv) (cfg : Config) : Option String :=
  match commandOutput env cfg.MySQLServiceStopCommand with
  | .ok _ => none
  | .error e => some e

/-- Function `MySQLStart`: propagate the start command's outcome. -/
def MySQLStart (env : ExecEnv) (cfg : Config) : Option String :=
  match commandOutput env cfg.MySQLServiceStartCommand with
  | .ok _ => none
  | .error e => some e

/-! Helper lemmas about the splitting and trimming primitives. -/

theorem consHead_cons (c : Char) (r : List Char) (rs : List (List Char)) :
    consHead c (r :: rs) = (c :: r) :: rs := rfl

theorem consHead_ne_nil (c : Char) (rs : List (List Char)) : consHead c rs ≠ [] := by
  cases rs <;> simp [consHead]

theorem splitOnChar_ne_nil (d : Char) (l : List Char) : splitOnChar d l ≠ [] := by
  cases l with
  | nil => simp [splitOnChar]
  | cons c cs =>
    by_cases h : c = d <;> simp [splitOnChar, h, consHead_ne_nil]

theorem splitRuns_ne_nil (p : Char → Bool) (l : List Char) : splitRuns p l ≠ [] := by
  induction l with
  | nil => simp [splitRuns]
  | cons c cs ih =>
    by_cases h : p c = true
    · cases cs with
      | nil => simp [splitRuns, h]
      | cons c2 cs2 =>
        by_cases h2 : p c2 = true
        · rw [show splitRuns p (c :: c2 :: cs2) = splitRuns p (c2 :: cs2) from by
            simp [splitRuns, h, h2]]
          exact ih
        · rw [show splitRuns p (c :: c2 :: cs2) = [] :: splitRuns p (c2 :: cs2) from by
            simp [splitRuns, h, h2]]
          simp
    · simp [splitRuns, h, consHead_ne_nil]

theorem splitRuns_no_delim (p : Char → Bool) :
    ∀ l : List Char, ∀ f ∈ splitRuns p l, ∀ c ∈ f, p c = false := by
  intro l
  induction l with
  | nil =>
    intro f hf c hc
    simp [splitRuns] at hf
    subst hf
    simp at hc
  | cons a as ih =>
    intro f hf c hc
    by_cases h : p a = true
    · cases as with
      | nil =>
        simp [splitRuns, h] at hf
        subst hf
        simp at hc
      | cons a2 as2 =>
        by_cases h2 : p a2 = true
        · rw [show splitRuns p (a :: a2 :: as2) = splitRuns p (a2 :: as2) from by
            simp [splitRuns, h, h2]] at hf
          exact ih f hf c hc
        · rw [show splitRuns p (a :: a2 :: as2) = [] :: splitRuns p (a2 :: as2) from by
            simp [splitRuns, h, h2]] at hf
          rcases List.mem_cons.mp hf with hf | hf
          · subst hf; simp at hc
          · exact ih f hf c hc
    · have ha : p a = false := by revert h; cases p a <;> simp
      rw [show splitRuns p (a :: as) = consHead a (splitRuns p as) from by
        simp [splitRuns, h]] at hf
      rcases hsr : splitRuns p as with _ | ⟨r, rs⟩
      · exact absurd hsr (splitRuns_ne_nil p as)
      · rw [hsr, consHead_cons] at hf
        rcases List.mem_cons.mp hf with hf | hf
        · subst hf
          rcases List.mem_cons.mp hc with hc | hc
          · subst hc; exact ha
          · exact ih r (by rw [hsr]; exact List.mem_cons_self r rs) c hc
        · exact ih f (by rw [hsr]; exact List.mem_cons_of_mem r hf) c hc

theorem flatten_consHead (c : Char) (rs : List (List Char)) (h : rs ≠ []) :
    (consHead c rs).flatten = c :: rs.flatten := by
  cases rs with
  | nil => exact absurd rfl h
  | cons r rs2 => simp [consHead]

theorem splitRuns_flatten (p : Char → Bool) :
    ∀ l : List Char, (splitRuns p l).flatten = l.filter (fun c => !p c) := by
  intro l
  induction l with
  | nil => simp [splitRuns]
  | cons a as ih =>
    by_cases h : p a = true
    · cases as with
      | nil => simp [splitRuns, h, List.filter_cons]
      | cons a2 as2 =>
        by_cases h2 : p a2 = true
        · rw [show splitRuns p (a :: a2 :: as2) = splitRuns p (a2 :: as2) from by
            simp [splitRuns, h, h2], ih]
          simp [List.filter_cons, h]
        · rw [show splitRuns p (a :: a2 :: as2) = [] :: splitRuns p (a2 :: as2) from by
            simp [splitRuns, h, h2], List.flatten_cons, List.nil_append, ih]
          simp [List.filter_cons, h]
    · have ha : p a = false := by revert h; cases p a <;> simp
      rw [show splitRuns p (a :: as) = consHead a (splitRuns p as) from by
        simp [splitRuns, h]]
      rw [flatten_consHead a _ (splitRuns_ne_nil p as), ih, List.filter_cons]
      simp [ha]

theorem goContains_empty_pattern (s : String) : goContains s "" = true := by
  unfold goContains
  rw [List.any_eq_true]
  exact ⟨s.toList, (List.mem_tails _ _).mpr (List.suffix_refl _), by simp⟩

theorem goContains_iff_infix (s pat : String) :
    goContains s pat = true ↔ pat.toList <:+: s.toList := by
  unfold goContains
  rw [List.any_eq_true, List.infix_iff_prefix_suffix]
  constructor
  · rintro ⟨t, ht, hp⟩
    exact ⟨t, List.isPrefixOf_iff_prefix.mp hp, (List.mem_tails _ _).mp ht⟩
  · rintro ⟨t, hp, ht⟩
    exact ⟨t, (List.mem_tails _ _).mpr ht, List.isPrefixOf_iff_prefix.mpr hp⟩

theorem trimLeftChars_cons_delim (p : Char → Bool) (c : Char) (h : p c = true)
    (l : List Char) : trimLeftChars p (c :: l) = trimLeftChars p l := by
  simp [trimLeftChars, h]

theorem trimRightChars_append_delim (p : Char → Bool) (c : Char) (h : p c = true)
    (l : List Char) : trimRightChars p (l ++ [c]) = trimRightChars p l := by
  unfold trimRightChars
  rw [List.reverse_append]
  simp [trimLeftChars, h]

theorem trimBothChars_cons_delim (p : Char → Bool) (c : Char) (h : p c = true)
    (l : List Char) : trimBothChars p (c :: l) = trimBothChars p l := by
  unfold trimBothChars
  rw [trimLeftChars_cons_delim p c h]

theorem trimBothChars_append_delim (p : Char → Bool) (c : Char) (h : p c = true) :
    ∀ l : List Char, trimBothChars p (l ++ [c]) = trimBothChars p l := by
  intro l
  induction l with
  | nil =>
    show trimBothChars p [c] = trimBothChars p []
    simp [trimBothChars, trimLeftChars, trimRightChars, h]
  | cons a as ih =>
    by_cases ha : p a = true
    · rw [show (a :: as) ++ [c] = a :: (as ++ [c]) from rfl,
        trimBothChars_cons_delim p a ha, trimBothChars_cons_delim p a ha, ih]
    · rw [List.cons_append]
      unfold trimBothChars
      rw [show trimLeftChars p (a :: (as ++ [c])) = a :: (as ++ [c]) from by
          simp [trimLeftChars, ha],
        show trimLeftChars p (a :: as) = a :: as from by simp [trimLeftChars, ha],
        ← List.cons_append, trimRightChars_append_delim p c h]

theorem splitOnChar_append (d : Char) :
    ∀ l1 l2 : List Char, d ∉ l1 →
      splitOnChar d (l1 ++ d :: l2) = l1 :: splitOnChar d l2 := by
  intro l1
  induction l1 with
  | nil =>
    intro l2 _
    simp [splitOnChar]
  | cons x l1 ih =>
    intro l2 hx
    have hxd : ¬ x = d := fun hh => hx (hh ▸ List.mem_cons_self x l1)
    have hmem : d ∉ l1 := fun hh => hx (List.mem_cons_of_mem x hh)
    rw [show (x :: l1) ++ d :: l2 = x :: (l1 ++ d :: l2) from rfl,
      show splitOnChar d (x :: (l1 ++ d :: l2)) =
        consHead x (splitOnChar d (l1 ++ d :: l2)) from by simp [splitOnChar, hxd],
      ih l2 hmem, consHead_cons]

theorem lvRowsLoop_eq_filter (filterPattern : String) :
    ∀ tokens : List (List String),
      lvRowsLoop filterPattern tokens =
        (parseLVRows tokens).map
          (fun rows => rows.filter (fun lv => goContains lv.Name filterPattern)) := by
  intro tokens
  induction tokens with
  | nil => rfl
  | cons t ts ih =>
    cases hp : parseLVRow t with
    | none => simp [lvRowsLoop, parseLVRows, hp]
    | some lv =>
      cases hm : parseLVRows ts with
      | none => simp [lvRowsLoop, parseLVRows, hp, hm, ih]
      | some rows => simp [lvRowsLoop, parseLVRows, hp, hm, ih, List.filter_cons]

theorem LogicalVolumes_ok_of_rows (env : ExecEnv) (volumeName filterPattern : String)
    (tokens : List (List String)) (rows : List LogicalVolume)
    (htok : outputTokens tabOrSpace (commandOutput env (lvsCommand volumeName)) =
      Except.ok tokens)
    (hrows : parseLVRows tokens = some rows) :
    LogicalVolumes env volumeName filterPattern =
      some (Except.ok (rows.filter (fun lv => goContains lv.Name filterPattern))) := by
  have hdef : LogicalVolumes env volumeName filterPattern =
      (lvRowsLoop filterPattern tokens).map Except.ok := by
    unfold LogicalVolumes
    rw [htok]
  rw [hdef, lvRowsLoop_eq_filter, hrows]
  rfl

/-- Claim C1: every invocation of LogicalVolumes returns exactly the parsed
rows whose name contains the pattern argument as a substring (substring
meaning list infix of the characters); an empty pattern keeps every parsed
row; and when zero rows match the result is the empty list with a nil
error. -/
theorem LogicalVolumes_name_filter (env : ExecEnv) (volumeName filterPattern : String)
    (tokens : List (List String)) (rows : List LogicalVolume)
    (htok : outputTokens tabOrSpace (commandOutput env (lvsCommand volumeName)) =
      Except.ok tokens)
    (hrows : parseLVRows tokens = some rows) :
    LogicalVolumes env volumeName filterPattern =
      some (Except.ok (rows.filter (fun lv => goContains lv.Name filterPattern)))
    ∧ (∀ s pat : String, goContains s pat = true ↔ pat.toList <:+: s.toList)
    ∧ (filterPattern = "" →
        rows.filter (fun lv => goContains lv.Name filterPattern) = rows)
    ∧ (rows.filter (fun lv => goContains lv.Name filterPattern) = [] →
        LogicalVolumes env volumeName filterPattern = some (Except.ok [])) := by
  have hmain := LogicalVolumes_ok_of_rows env volumeName filterPattern tokens rows htok hrows
  refine ⟨hmain, goContains_iff_infix, ?_, ?_⟩
  · intro hpat
    subst hpat
    exact List.filter_eq_self.mpr (fun lv _ => goContains_empty_pattern lv.Name)
  · intro h0
    rw [hmain, h0]

theorem LogicalVolumes_name_filter_witness :
    LogicalVolumes
      (fun _ _ => Except.ok "  lv0 vg0 /dev/vg0/lv0 x\n  snap1 vg0 /dev/vg0/snap1 1.00")
      "" "snap" =
      some (Except.ok [⟨"snap1", "vg0", "/dev/vg0/snap1", true, GoFloat.finite 1⟩]) := by
  have h := (LogicalVolumes_name_filter
    (fun _ _ => Except.ok "  lv0 vg0 /dev/vg0/lv0 x\n  snap1 vg0 /dev/vg0/snap1 1.00")
    "" "snap"
    [["", "lv0", "vg0", "/dev/vg0/lv0", "x"], ["", "snap1", "vg0", "/dev/vg0/snap1", "1.00"]]
    [⟨"lv0", "vg0", "/dev/vg0/lv0", false, GoFloat.finite 0⟩,
      ⟨"snap1", "vg0", "/dev/vg0/snap1", true, GoFloat.finite 1⟩]
    (by rfl) (by
      simp [parseLVRows, parseLVRow, goParseFloat, goParseFloatSyntax, asciiLower,
        digitsToNat, maxFloat32, underflowFloat32]
      norm_num)).1
  exact h.trans (by
    simp [List.filter_cons, show goContains "lv0" "snap" = false from by decide,
      show goContains "snap1" "snap" = true from by decide])

/-- Claim C2, counterexample: a decimal snapshot-percent field that
overflows float32 fails to parse with a range error, and the resulting
SnapshotPercent is then positive infinity, not zero, refuting the claim
that every failed parse leaves snapshotPercent at zero. -/
theorem snapshot_percent_overflow_counterexample :
    goParseFloat "1e39" = (GoFloat.posInf, some "value out of range")
    ∧ parseLVRow ["", "snap1", "vg0", "/dev/vg0/snap1", "1e39"] =
      some ⟨"snap1", "vg0", "/dev/vg0/snap1", false, GoFloat.posInf⟩
    ∧ GoFloat.posInf ≠ GoFloat.finite 0 := by
  have hpf : goParseFloat "1e39" = (GoFloat.posInf, some "value out of range") := by
    simp [goParseFloat, goParseFloatSyntax, asciiLower, digitsToNat, maxFloat32,
      underflowFloat32]
    norm_num
  refine ⟨hpf, ?_, by decide⟩
  simp [parseLVRow, hpf]

/-- Claim C2, amended: for every parsed row, IsSnapshot is true exactly
when the snapshot-percent field parses without error; on a failed parse
IsSnapshot is false and SnapshotPercent holds whatever value the failed
parse returned (zero for a syntax error, but a signed infinity for an
out-of-range decimal) rather than always zero; and the parse outcome
never turns a successful LogicalVolumes invocation into an error. -/
theorem LogicalVolumes_snapshot_parse_policy_amended (lineTokens : List String)
    (lv : LogicalVolume) (snapField : String)
    (hfield : lineTokens.get? 4 = some snapField)
    (hrow : parseLVRow lineTokens = some lv) :
    lv.IsSnapshot = (goParseFloat snapField).2.isNone
    ∧ lv.SnapshotPercent = (goParseFloat snapField).1
    ∧ ((goParseFloat snapField).2 ≠ none → lv.IsSnapshot = false)
    ∧ goParseFloat "x" = (GoFloat.finite 0, some "invalid syntax")
    ∧ goParseFloat "1e39" = (GoFloat.posInf, some "value out of range")
    ∧ (∀ (env : ExecEnv) (volumeName filterPattern : String)
        (tokens : List (List String)) (rows : List LogicalVolume),
        outputTokens tabOrSpace (commandOutput env (lvsCommand volumeName)) =
          Except.ok tokens →
        parseLVRows tokens = some rows →
        ∃ lvs, LogicalVolumes env volumeName filterPattern = some (Except.ok lvs)) := by
  have hnoerr : ∀ (env : ExecEnv) (volumeName filterPattern : String)
      (tokens : List (List String)) (rows : List LogicalVolume),
      outputTokens tabOrSpace (commandOutput env (lvsCommand volumeName)) =
        Except.ok tokens →
      parseLVRows tokens = some rows →
      ∃ lvs, LogicalVolumes env volumeName filterPattern = some (Except.ok lvs) :=
    fun env vn pat tokens rows htok hrows =>
      ⟨rows.filter (fun v => goContains v.Name pat),
        LogicalVolumes_ok_of_rows env vn pat tokens rows htok hrows⟩
  have hover : goParseFloat "1e39" = (GoFloat.posInf, some "value out of range") := by
    simp [goParseFloat, goParseFloatSyntax, asciiLower, digitsToNat, maxFloat32,
      underflowFloat32]
    norm_num
  cases h1 : lineTokens.get? 1 with
  | none => rw [parseLVRow, h1] at hrow; exact absurd hrow (by simp)
  | some name =>
  cases h2 : lineTokens.get? 2 with
  | none => rw [parseLVRow, h1, h2] at hrow; exact absurd hrow (by simp)
  | some groupName =>
  cases h3 : lineTokens.get? 3 with
  | none => rw [parseLVRow, h1, h2, h3] at hrow; exact absurd hrow (by simp)
  | some path =>
  rw [parseLVRow, h1, h2, h3, hfield] at hrow
  simp only [Option.bind_eq_bind, Option.some_bind, Option.pure_def,
    Option.some.injEq] at hrow
  subst hrow
  refine ⟨rfl, rfl, ?_, by rfl, hover, hnoerr⟩
  intro h
  cases hc : (goParseFloat snapField).2 with
  | none => exact absurd hc h
  | some e => simp [hc]

theorem LogicalVolumes_snapshot_parse_policy_amended_witness :
    (⟨"lv0", "vg0", "/dev/vg0/lv0", false, GoFloat.finite 0⟩ : LogicalVolume).IsSnapshot
      = (goParseFloat "x").2.isNone :=
  (LogicalVolumes_snapshot_parse_policy_amended ["", "lv0", "vg0", "/dev/vg0/lv0", "x"]
    ⟨"lv0", "vg0", "/dev/vg0/lv0", false, GoFloat.finite 0⟩ "x" (by rfl) (by rfl)).1

/-- Claim C3: a mount point whose lookup command fails is reported by
GetMount as not mounted at that path, with empty device, filesystem and
volume path, zero disk usage and a nil error. -/
theorem GetMount_lookup_failure_not_error (env : ExecEnv) (mountPoint e : String)
    (h : commandOutput env ("grep " ++ mountPoint ++ " /etc/mtab") = Except.error e) :
    GetMount env mountPoint = some (emptyMount mountPoint, none)
    ∧ (emptyMount mountPoint).IsMounted = false
    ∧ (emptyMount mountPoint).Device = ""
    ∧ (emptyMount mountPoint).FileSystem = ""
    ∧ (emptyMount mountPoint).DiskUsage = 0
    ∧ (emptyMount mountPoint).LVPath = ""
    ∧ (emptyMount mountPoint).Path = mountPoint := by
  refine ⟨?_, rfl, rfl, rfl, rfl, rfl, rfl⟩
  unfold GetMount
  rw [show outputTokens tabOrSpace
      (commandOutput env ("grep " ++ mountPoint ++ " /etc/mtab")) = Except.error e from by
    rw [h]; rfl]

theorem GetMount_lookup_failure_not_error_witness :
    GetMount (fun _ _ => Except.error "exit status 1") "/mnt/snap" =
      some (emptyMount "/mnt/snap", none) :=
  (GetMount_lookup_failure_not_error (fun _ _ => Except.error "exit status 1")
    "/mnt/snap" "exit status 1" (by rfl)).1

theorem outputLines_ok (out : String) :
    outputLines (Except.ok out) =
      Except.ok ((splitOnChar '\n'
        (trimBothChars (fun c => decide (c = '\n')) out.toList)).map
        (fun l => (⟨l⟩ : String))) := rfl

/-- Claim C4, counterexample: outputLines does not remove exactly one
trailing newline. On the output a-newline-newline it removes both
trailing newlines and yields the single line a, not the two lines the
claim predicts. -/
theorem outputLines_double_newline_counterexample :
    outputLines (Except.ok "a\n\n") = Except.ok ["a"]
    ∧ (["a"] : List String) ≠ ["a", ""] :=
  ⟨rfl, by decide⟩

/-- Claim C4, amended: outputLines removes all leading and all trailing
newlines (appending or prepending a newline never changes the result)
and then splits on newline; empty output still yields the one-element
sequence holding the empty string, while output ending in two newlines
loses the trailing empty line. The final conjunct states the splitting
behaviour of the underlying splitter on an embedded newline. -/
theorem outputLines_amended :
    (∀ s : String, outputLines (Except.ok (s ++ "\n")) = outputLines (Except.ok s))
    ∧ (∀ s : String, outputLines (Except.ok ("\n" ++ s)) = outputLines (Except.ok s))
    ∧ outputLines (Except.ok "") = Except.ok [""]
    ∧ outputLines (Except.ok "a\n\n") = Except.ok ["a"]
    ∧ (∀ l1 l2 : List Char, '\n' ∉ l1 →
        splitOnChar '\n' (l1 ++ '\n' :: l2) = l1 :: splitOnChar '\n' l2) := by
  refine ⟨?_, ?_, rfl, rfl, splitOnChar_append '\n'⟩
  · intro s
    rw [outputLines_ok, outputLines_ok,
      show (s ++ "\n").toList = s.toList ++ ['\n'] from rfl,
      trimBothChars_append_delim _ '\n' rfl]
  · intro s
    rw [outputLines_ok, outputLines_ok,
      show ("\n" ++ s).toList = '\n' :: s.toList from rfl,
      trimBothChars_cons_delim _ '\n' rfl]

theorem outputLines_amended_witness :
    splitOnChar '\n' ['a', '\n', 'b'] = [['a'], ['b']] := by
  have h := outputLines_amended.2.2.2.2 ['a'] ['b'] (by decide)
  exact h.trans (by decide)

/-- Claim C5, counterexample: commandSplit does not treat every
whitespace character as an argument separator. On a command line with
an interior tab, the tab does not separate and the resulting argument
contains a whitespace character. -/
theorem commandSplit_tab_counterexample :
    commandSplit "a b\tc" = ("a", ["b\tc"])
    ∧ '\t' ∈ "b\tc".toList
    ∧ goIsSpace '\t' = true :=
  ⟨rfl, by decide, rfl⟩

/-- Claim C5, amended: after trimming surrounding whitespace,
commandSplit splits only on runs of spaces: no produced token contains
a space, the tokens concatenate back to the trimmed command line with
its spaces removed, but a tab does not separate and survives inside an
argument. -/
theorem commandSplit_space_split_amended (commandText : String) :
    (∀ c ∈ (commandSplit commandText).1.toList, ¬(c = ' '))
    ∧ (∀ arg ∈ (commandSplit commandText).2, ∀ c ∈ arg.toList, ¬(c = ' '))
    ∧ (((commandSplit commandText).1 :: (commandSplit commandText).2).map
        String.toList).flatten =
      (goTrimSpace commandText).toList.filter (fun c => !(decide (c = ' ')))
    ∧ commandSplit "a b\tc" = ("a", ["b\tc"]) := by
  rcases hF : splitRuns (fun c => decide (c = ' ')) (goTrimSpace commandText).toList
    with _ | ⟨f, fs⟩
  · exact absurd hF (splitRuns_ne_nil _ _)
  · have hcs : commandSplit commandText =
        ((⟨f⟩ : String), fs.map (fun l => (⟨l⟩ : String))) := by
      unfold commandSplit
      rw [hF]
      rfl
    have hmemF : ∀ g, g ∈ splitRuns (fun c => decide (c = ' '))
        (goTrimSpace commandText).toList → ∀ c ∈ g, ¬(c = ' ') := by
      intro g hg c hc
      have := splitRuns_no_delim (fun c => decide (c = ' ')) _ g hg c hc
      exact of_decide_eq_false this
    refine ⟨?_, ?_, ?_, rfl⟩
    · intro c hc
      rw [hcs] at hc
      exact hmemF f (by rw [hF]; exact List.mem_cons_self f fs) c hc
    · intro arg harg c hc
      rw [hcs] at harg
      obtain ⟨g, hg, rfl⟩ := List.mem_map.mp harg
      exact hmemF g (by rw [hF]; exact List.mem_cons_of_mem f hg) c hc
    · rw [hcs]
      have hmapfs : fs.map (String.toList ∘ fun l : List Char => (⟨l⟩ : String)) = fs := by
        rw [show (String.toList ∘ fun l : List Char => (⟨l⟩ : String)) = id from rfl,
          List.map_id]
      have hlists : (((⟨f⟩ : String) :: fs.map (fun l => (⟨l⟩ : String))).map
          String.toList) = f :: fs := by
        rw [List.map_cons, List.map_map, hmapfs]
        rfl
      rw [hlists, show (f :: fs : List (List Char)) =
          splitRuns (fun c => decide (c = ' ')) (goTrimSpace commandText).toList
          from hF.symm,
        splitRuns_flatten]

theorem commandSplit_space_split_amended_witness :
    ¬(('b' : Char) = ' ') :=
  (commandSplit_space_split_amended "a b\tc").2.1 "b\tc" (by decide) 'b' (by decide)

/-- Claim C6, counterexample: at a NaN snapshot percentage, reachable
because the float parser accepts the NaN form, IsSnapshotValid returns
true although the percentage does not compare strictly below 100, so
the claimed equivalence with isSnapshot and percent-below-100 fails. -/
theorem IsSnapshotValid_nan_counterexample :
    LogicalVolume.IsSnapshotValid ⟨"snap", "vg", "/dev/vg/snap", true, GoFloat.nan⟩ = true
    ∧ GoFloat.lt GoFloat.nan (GoFloat.finite 100) = false
    ∧ goParseFloat "nan" = (GoFloat.nan, none) := by
  refine ⟨by decide, by decide, ?_⟩
  simp [goParseFloat, goParseFloatSyntax, asciiLower]

/-- Claim C6, amended: IsSnapshotValid is true exactly when isSnapshot
is true and the percentage does not compare greater than or equal to
100 under IEEE comparison; for every percentage other than NaN this
coincides with the claimed percent-below-100 form (so exactly 100, and
any larger value or positive infinity, is invalid), but a NaN
percentage defeats the guard and counts as valid. -/
theorem IsSnapshotValid_amended :
    (∀ lv : LogicalVolume,
      lv.IsSnapshotValid =
        (lv.IsSnapshot && !(GoFloat.ge lv.SnapshotPercent (GoFloat.finite 100))))
    ∧ (∀ lv : LogicalVolume, lv.SnapshotPercent ≠ GoFloat.nan →
        lv.IsSnapshotValid =
          (lv.IsSnapshot && GoFloat.lt lv.SnapshotPercent (GoFloat.finite 100)))
    ∧ LogicalVolume.IsSnapshotValid
        ⟨"snap", "vg", "/dev/vg/snap", true, GoFloat.finite 100⟩ = false
    ∧ LogicalVolume.IsSnapshotValid
        ⟨"snap", "vg", "/dev/vg/snap", true, GoFloat.nan⟩ = true := by
  refine ⟨?_, ?_, by decide, by decide⟩
  · intro lv
    rcases lv with ⟨n, g, p, snap, pct⟩
    cases snap
    · rfl
    · cases pct with
      | finite q =>
        by_cases h : (100 : ℚ) ≤ q
        · simp [LogicalVolume.IsSnapshotValid, GoFloat.ge, h]
        · simp [LogicalVolume.IsSnapshotValid, GoFloat.ge, h]
      | posInf => rfl
      | negInf => rfl
      | nan => rfl
  · intro lv hnan
    rcases lv with ⟨n, g, p, snap, pct⟩
    cases snap
    · rfl
    · cases pct with
      | finite q =>
        by_cases h : (100 : ℚ) ≤ q
        · simp [LogicalVolume.IsSnapshotValid, GoFloat.ge, GoFloat.lt, h, not_lt.mpr h]
        · simp [LogicalVolume.IsSnapshotValid, GoFloat.ge, GoFloat.lt, h, not_le.mp h]
      | posInf => rfl
      | negInf => rfl
      | nan => exact absurd rfl hnan

theorem IsSnapshotValid_amended_witness :
    LogicalVolume.IsSnapshotValid ⟨"snap", "vg", "/dev/vg/snap", true, GoFloat.finite 50⟩
      = (true && GoFloat.lt (GoFloat.finite 50) (GoFloat.finite 100)) :=
  IsSnapshotValid_amended.2.1
    ⟨"snap", "vg", "/dev/vg/snap", true, GoFloat.finite 50⟩ (by decide)

/-- Claim C7: MountLV with an empty volume name returns the unmounted
Mount together with the invalid-argument error, independently of the
environment, so no external command is ever executed. -/
theorem MountLV_empty_volume_name (env : ExecEnv) (mountPoint : String) :
    MountLV env mountPoint "" =
      some (emptyMount mountPoint, some "Empty columeName in MountLV")
    ∧ (emptyMount mountPoint).IsMounted = false := by
  refine ⟨?_, rfl⟩
  unfold MountLV
  rw [if_pos rfl]

/-- Claim C8: DiskUsage parses the first field of the first output row
as an integer and returns that parse (so the sample output parses to
12345), a non-numeric first field produces the parse error, and an
execution failure of the command is propagated. -/
theorem DiskUsage_spec (env : ExecEnv) (path : String) :
    DiskUsage (fun _ _ => Except.ok "12345\t/some/path") "/some/path" = (12345, none)
    ∧ (∀ (lineTokens : List String) (rest : List (List String)),
        outputTokens tabOrSpace (commandOutput env ("du -sb " ++ path)) =
          Except.ok (lineTokens :: rest) →
        DiskUsage env path = goParseInt (lineTokens.headD ""))
    ∧ (∀ (lineTokens : List String) (rest : List (List String)),
        outputTokens tabOrSpace (commandOutput env ("du -sb " ++ path)) =
          Except.ok (lineTokens :: rest) →
        (goParseInt (lineTokens.headD "")).2 ≠ none → (DiskUsage env path).2 ≠ none)
    ∧ (∀ e, commandOutput env ("du -sb " ++ path) = Except.error e →
        DiskUsage env path = (0, some e)) := by
  have hrow : ∀ (lineTokens : List String) (rest : List (List String)),
      outputTokens tabOrSpace (commandOutput env ("du -sb " ++ path)) =
        Except.ok (lineTokens :: rest) →
      DiskUsage env path = goParseInt (lineTokens.headD "") := by
    intro lineTokens rest htok
    unfold DiskUsage
    rw [htok]
  refine ⟨by decide, hrow, ?_, ?_⟩
  · intro lineTokens rest htok hpe
    rw [hrow lineTokens rest htok]
    exact hpe
  · intro e he
    unfold DiskUsage
    rw [show outputTokens tabOrSpace (commandOutput env ("du -sb " ++ path)) =
        Except.error e from by rw [he]; rfl]

theorem DiskUsage_spec_witness :
    DiskUsage (fun _ _ => Except.ok "abc def") "/p" = (0, some "invalid syntax") := by
  have h := (DiskUsage_spec (fun _ _ => Except.ok "abc def") "/p").2.1
    ["abc", "def"] [] (by rfl)
  exact h.trans (by rfl)

/-- Claim C9: MySQLRunning reports true with a nil error when the
status command exits zero and false with a nil error when it exits
non-zero; its returned error is nil for every outcome. -/
theorem MySQLRunning_exit_status (env : ExecEnv) (cfg : Config) :
    (∀ out, commandOutput env cfg.MySQLServiceStatusCommand = Except.ok out →
      MySQLRunning env cfg = (true, none))
    ∧ (∀ e, commandOutput env cfg.MySQLServiceStatusCommand = Except.error e →
      MySQLRunning env cfg = (false, none))
    ∧ (MySQLRunning env cfg).2 = none := by
  refine ⟨?_, ?_, ?_⟩
  · intro out h
    unfold MySQLRunning
    rw [h]
  · intro e h
    unfold MySQLRunning
    rw [h]
  · unfold MySQLRunning
    cases commandOutput env cfg.MySQLServiceStatusCommand <;> rfl

theorem MySQLRunning_exit_status_witness :
    MySQLRunning (fun _ _ => Except.ok "mysqld is running")
      ⟨"", "", "service mysql status", "", "", "", ""⟩ = (true, none)
    ∧ MySQLRunning (fun _ _ => Except.error "exit status 3")
      ⟨"", "", "service mysql status", "", "", "", ""⟩ = (false, none) :=
  ⟨(MySQLRunning_exit_status (fun _ _ => Except.ok "mysqld is running")
      ⟨"", "", "service mysql status", "", "", "", ""⟩).1 "mysqld is running" (by rfl),
    (MySQLRunning_exit_status (fun _ _ => Except.error "exit status 3")
      ⟨"", "", "service mysql status", "", "", "", ""⟩).2.1 "exit status 3" (by rfl)⟩

/-- Claim C10: whenever GetMount returns a value, the error component of
that value is nil, whatever the environment does: the failed-lookup
branch and the rows-found branch both return a nil error, and the
best-effort volume-path and disk-usage failures inside the row loop are
discarded. -/
theorem GetMount_never_errors (env : ExecEnv) (mountPoint : String)
    (r : Mount × Option String) (h : GetMount env mountPoint = some r) :
    r.2 = none := by
  unfold GetMount at h
  cases htok : outputTokens tabOrSpace
      (commandOutput env ("grep " ++ mountPoint ++ " /etc/mtab")) with
  | error e =>
    rw [htok] at h
    have h2 : (some (emptyMount mountPoint, none) : Option (Mount × Option String)) =
        some r := h
    injection h2 with h3
    rw [← h3]
  | ok tokens =>
    rw [htok] at h
    have h2 : (mountLoop env mountPoint tokens (emptyMount mountPoint)).map
        (fun m => (m, none)) = some r := h
    obtain ⟨m, _, hr⟩ := Option.map_eq_some'.mp h2
    rw [← hr]

theorem GetMount_never_errors_witness :
    ((emptyMount "/mnt/snap", (none : Option String))).2 = none :=
  GetMount_never_errors (fun _ _ => Except.error "exit status 1") "/mnt/snap"
    (emptyMount "/mnt/snap", none) (by rfl)

end Osagent
